import Mathlib

/-!
Verification of the durable parallel buffer (`lib/buffer/parallel/badger.go`)
and the bloblang mapping executor (`internal/bloblang/mapping/executor.go`)
against their natural-language specification.

The Go code is embedded shallowly: the buffer's mutable fields become a
`Buffer` structure threaded explicitly through each operation, machine
integers become `Nat`/`Int`, and fallible operations return `Except`.
External collaborators (the badger KV store, the message codec, the query
and assignment evaluators) are modelled by the interfaces the spec assigns
them in its §6.
-/

namespace Badger

/-- Bytes of a message as persisted by the store (the codec is the identity
on raw bytes for the purposes of the buffer). -/
abbrev Msg := List Nat

/-- A record key: a byte slice, as produced by `[]byte(fmt.Sprintf("%020d", n))`. -/
abbrev Key := List Nat

/-- Little-endian decimal digits of `n`, with `fuel` bounding the recursion
depth (any `fuel ≥ n` yields the exact digits; `0` has no digits). -/
def digitsLEAux : Nat → Nat → List Nat
  | 0, _ => []
  | fuel + 1, n => if n = 0 then [] else n % 10 :: digitsLEAux fuel (n / 10)

/-- Little-endian decimal digits of `n`. -/
def digitsLE (n : Nat) : List Nat := digitsLEAux n n

/-- Decimal digits of `n`, most significant first, left-padded with zeros
to at least 20 digits. -/
def pad20 (n : Nat) : List Nat :=
  let ds := (digitsLE n).reverse
  List.replicate (20 - ds.length) 0 ++ ds

/-- Model of Go `fmt.Sprintf("%020d", n)` as the resulting byte slice: the
decimal representation of `n` (most significant digit first), left-padded
with ASCII `'0'` (48) to at least 20 bytes. -/
def sprintf020 (n : Nat) : Key :=
  (pad20 n).map (fun d => 48 + d)

/-- Horner evaluation of a most-significant-first digit list. -/
def hornerVal (l : List Nat) : Nat := l.foldl (fun a d => 10 * a + d) 0

/-- Decode a key back to the sequence number it printed: strip the ASCII
offset and evaluate the decimal digits. -/
def decodeKey (k : Key) : Nat := k.foldl (fun a c => 10 * a + (c - 48)) 0

/-- Strict lexicographic order on byte slices, as used by the store's
ordered iteration (Go `bytes.Compare k₁ k₂ < 0`). -/
def bytesLt : List Nat → List Nat → Bool
  | [], [] => false
  | [], _ :: _ => true
  | _ :: _, [] => false
  | a :: as, b :: bs => if a < b then true else if b < a then false else bytesLt as bs

/-- Errors surfaced by the buffer operations. -/
inductive BufErr where
  /-- `types.ErrTypeClosed`: the buffer has been closed. -/
  | typeClosed
  /-- The sequential embedding of `NextMessage` on an empty open buffer: the
  real call blocks on the condition variable; no producer can intervene in a
  sequential run, so the wait is represented as this distinguished outcome. -/
  | wouldBlock
  /-- The KV read (or codec decode) after a take failed; the Go code restores
  the head key under the lock, so the caller's state is unchanged. -/
  | readFailed
deriving DecidableEq

/-- Look up the most recent binding of a key in the store (the store is kept
as a write-log: `Set` prepends, so the first hit is the live value). -/
def lookupStore : List (Key × Msg) → Key → Option Msg
  | [], _ => none
  | (k, m) :: rest, key => if k = key then some m else lookupStore rest key

/-- Delete every binding of a key (badger `txn.Delete`). -/
def eraseStoreKey (s : List (Key × Msg)) (key : Key) : List (Key × Msg) :=
  s.filter (fun kv => kv.1 ≠ key)

/-- On-disk size reported by `db.Size()`: total payload bytes. -/
def storeSize (s : List (Key × Msg)) : Nat := (s.map (fun kv => kv.2.length)).sum

/-- State of the `Badger` buffer: the in-memory pending-key list and counter,
the open/closed flags of the DB handle and the sequence handle, whether the
sequence lease was ever returned via `Release`, the next sequence number,
and the contents of the KV store. -/
structure Buffer where
  messageKeys : List Key
  pendingCtr : Int
  dbOpen : Bool
  seqAttached : Bool
  seqReleased : Bool
  seqNext : Nat
  store : List (Key × Msg)
deriving DecidableEq

/-- A freshly opened buffer over an empty directory (`NewBadger` with no
pre-existing records): empty pending list, zero counter, sequence starting
at 0, nothing persisted, lease held and not released. -/
def freshBuffer : Buffer :=
  { messageKeys := []
    pendingCtr := 0
    dbOpen := true
    seqAttached := true
    seqReleased := false
    seqNext := 0
    store := [] }

/-- Embedding of `(*Badger).PushMessage`: fail fast when closed, reserve the
next key from the sequence, persist the record, append the key at the tail of
the pending list, increment the counter, and report the store size. KV
failures of `seq.Next` and `txn.Set` are not modelled (claims assume a
healthy store). -/
def PushMessage (m : Msg) (b : Buffer) : Except BufErr (Nat × Buffer) :=
  if b.dbOpen = false then .error .typeClosed
  else
    let key := sprintf020 b.seqNext
    let store' := (key, m) :: b.store
    .ok (storeSize store',
      { b with
        store := store'
        seqNext := b.seqNext + 1
        messageKeys := b.messageKeys ++ [key]
        pendingCtr := b.pendingCtr + 1 })

/-- Embedding of `(*Badger).NextMessage`: when closed return the closed
error; when the pending list is empty the real call blocks (see
`BufErr.wouldBlock`); otherwise remove the head key, read its record outside
the lock, and return the message together with the key the ack handle
captures. A failed read restores the head key, so the caller's state is
unchanged on `.readFailed`. -/
def NextMessage (b : Buffer) : Except BufErr (Msg × Key × Buffer) :=
  if b.dbOpen = false then .error .typeClosed
  else
    match b.messageKeys with
    | [] => .error .wouldBlock
    | key :: rest =>
      match lookupStore b.store key with
      | some m => .ok (m, key, { b with messageKeys := rest })
      | none => .error .readFailed

/-- Embedding of the ack closure returned by `NextMessage` (`AckFunc`),
applied to the key it captured: fail fast when closed; on a positive ack
delete the record and decrement the counter; on a negative ack re-insert the
key at the head of the pending list; report the store size. -/
def AckFunc (key : Key) (ack : Bool) (b : Buffer) : Except BufErr (Nat × Buffer) :=
  if b.dbOpen = false then .error .typeClosed
  else if ack then
    let store' := eraseStoreKey b.store key
    .ok (storeSize store', { b with store := store', pendingCtr := b.pendingCtr - 1 })
  else
    .ok (storeSize b.store, { b with messageKeys := key :: b.messageKeys })

/-- Embedding of `cleanUpBadger`: the sequence pointer is set to nil and the
DB is closed. Note `seq.Release` is never called, so `seqReleased` is left
untouched. -/
def cleanUpBadger (b : Buffer) : Buffer :=
  { b with seqAttached := false, dbOpen := false }

/-- Embedding of `(*Badger).Close`. -/
def Close (b : Buffer) : Buffer := cleanUpBadger b

/-- Embedding of `(*Badger).CloseOnceEmpty` at the moment its wait (for
`pendingCtr ≤ 0` or an intervening close) has completed. -/
def CloseOnceEmpty (b : Buffer) : Buffer := cleanUpBadger b

/-- Push a whole list of messages in order. -/
def pushAll : List Msg → Buffer → Except BufErr Buffer
  | [], b => .ok b
  | m :: ms, b => do
    let (_, b') ← PushMessage m b
    pushAll ms b'

/-- Take `n` messages in order, never acking. -/
def takeAll : Nat → Buffer → Except BufErr (List Msg × Buffer)
  | 0, b => .ok ([], b)
  | n + 1, b => do
    let (m, _, b') ← NextMessage b
    let (ms, b'') ← takeAll n b'
    .ok (m :: ms, b'')

/-- Push `ms` into a fresh buffer, then take them all back. -/
def fifoRun (ms : List Msg) : Except BufErr (List Msg) := do
  let b ← pushAll ms freshBuffer
  let (out, _) ← takeAll ms.length b
  .ok out

/-- A buffer together with the multiset of keys handed out by `NextMessage`
whose ack handles have not been invoked yet (in-flight messages). -/
structure BufferEx where
  buf : Buffer
  inFlight : List Key
deriving DecidableEq

/-- The states reachable from a freshly opened empty buffer by successful
pushes, takes and acks, each ack handle being invoked at most once, plus
close. This is the sequential (quiescent-moment) semantics of the buffer. -/
inductive Reachable : BufferEx → Prop where
  | fresh : Reachable ⟨freshBuffer, []⟩
  | push {s : BufferEx} {m : Msg} {n : Nat} {b' : Buffer} :
      Reachable s → PushMessage m s.buf = .ok (n, b') →
      Reachable ⟨b', s.inFlight⟩
  | take {s : BufferEx} {m : Msg} {k : Key} {b' : Buffer} :
      Reachable s → NextMessage s.buf = .ok (m, k, b') →
      Reachable ⟨b', k :: s.inFlight⟩
  | ackPos {s : BufferEx} {k : Key} {n : Nat} {b' : Buffer} :
      Reachable s → k ∈ s.inFlight → AckFunc k true s.buf = .ok (n, b') →
      Reachable ⟨b', s.inFlight.erase k⟩
  | ackNeg {s : BufferEx} {k : Key} {n : Nat} {b' : Buffer} :
      Reachable s → k ∈ s.inFlight → AckFunc k false s.buf = .ok (n, b') →
      Reachable ⟨b', s.inFlight.erase k⟩
  | close {s : BufferEx} :
      Reachable s → Reachable ⟨Close s.buf, s.inFlight⟩

end Badger

namespace Mapping

/-- The value lattice threaded through a mapping execution: JSON-like
scalars plus the two sentinels. The executor only ever type-switches on
`Nothing`, `Delete`, `string`, `[]byte` and `bool`; every other inhabitant
flows through the uniform "structured" path, so scalars suffice to
represent the distinctions `executor.go` inspects. -/
inductive Value where
  /-- `query.Nothing`: skip-assignment sentinel. -/
  | nothing
  /-- `query.Delete`: discard-part sentinel. -/
  | delete
  | vBool (b : Bool)
  | vStr (s : String)
  | vBytes (bs : List Nat)
  | vNum (n : Int)
  | vNull
deriving DecidableEq

/-- Value types as named by the external `query.NewTypeErrorFrom`. -/
inductive ValueType where
  | TNothing | TDelete | TBool | TString | TBytes | TNumber | TNull
deriving DecidableEq

/-- The actual type of a value, as reported in type errors. -/
def Value.typeOf : Value → ValueType
  | .nothing => .TNothing
  | .delete => .TDelete
  | .vBool _ => .TBool
  | .vStr _ => .TString
  | .vBytes _ => .TBytes
  | .vNum _ => .TNumber
  | .vNull => .TNull

/-- Metadata of a message part: key/value string pairs. -/
abbrev Metadata := List (String × String)

/-- A message part (`types.Part`): raw payload bytes, optionally structured
content installed by `SetJSON` (which shadows the raw bytes for `JSON()`),
and metadata. -/
structure Part where
  raw : List Nat
  structured : Option Value
  meta : Metadata
deriving DecidableEq

/-- The UTF-8 bytes of a string, as produced by Go `[]byte(s)`. -/
def strBytes (s : String) : List Nat := s.toUTF8.toList.map UInt8.toNat

/-- `part.Set(bytes)`: overwrite the raw payload (dropping any structured
content). -/
def Part.set (p : Part) (bs : List Nat) : Part :=
  { p with raw := bs, structured := none }

/-- `part.SetJSON(value)`: install structured content (the external
marshaller is modelled as always succeeding). -/
def Part.setJSON (p : Part) (v : Value) : Part :=
  { p with structured := some v }

/-- A message batch is a list of parts; `Get` out of range yields the
`ErrMessagePartNotExist` behaviour via `List.get?`. -/
abbrev Batch := List Part

/-- The external JSON parser applied to raw payload bytes. Executions are
parameterised over it; `partJSON parse p` is `p.JSON()`. -/
abbrev ParseFn := List Nat → Except String Value

/-- `part.JSON()`: structured content if installed, otherwise parse the raw
payload. -/
def partJSON (parse : ParseFn) (p : Part) : Except String Value :=
  match p.structured with
  | some v => .ok v
  | none => parse p.raw

/-- Variable bindings of one run (`vars`). -/
abbrev Vars := List (String × Value)

/-- Errors returned by the external `query.Function.Exec`. -/
inductive QErr where
  /-- `query.ErrNoContext`: the query needed `this` but none was available. -/
  | noContext
  | other (msg : String)
deriving DecidableEq

/-- The external model of a compiled `query.Function`: how many times its
`Exec` invokes the caller-supplied value closure, and the result it computes
from the variables and the (possibly absent) structured view. -/
structure QueryFn where
  demands : Nat
  run : Vars → Option Value → Except QErr Value

/-- An assignment context (`AssignmentContext`): named-map scope omitted
(unused by the executor's own control flow), variables, the part's metadata
when a part exists (`Meta` is nil in `QueryPart` and `Exec`), and the
working value. -/
structure AssignCtx where
  vars : Vars
  meta : Option Metadata
  value : Value

/-- The external model of an `Assignment`: `Apply` transforms the
assignment context or fails. -/
structure AssignmentFn where
  apply : Value → AssignCtx → Except String AssignCtx

/-- Embedding of `mapping.Statement`. -/
structure Statement where
  input : List Char
  assignment : AssignmentFn
  query : QueryFn

/-- Embedding of `mapping.Executor`. -/
structure Executor where
  annotation : String
  input : List Char
  maps : List (String × QueryFn)
  statements : List Statement

/-- Go `strings.Split(s, "\n")` on rune slices: always at least one
element; each `'\n'` starts a new (possibly empty) chunk. -/
def splitOnNL : List Char → List (List Char)
  | [] => [[]]
  | c :: rest =>
    match splitOnNL rest with
    | [] => [[]]
    | l :: ls => if c = '\n' then [] :: l :: ls else (c :: l) :: ls

/-- The loop of `LineAndColOf`: walk the lines, breaking once the remaining
offset fits within the current line's length plus its newline. -/
def lineColLoop : List (List Char) → Int → Int → Int × Int
  | [], line, ch => (line + 1, ch + 1)
  | ln :: rest, line, ch =>
    if ch < (ln.length : Int) + 1 then (line + 1, ch + 1)
    else lineColLoop rest (line + 1) (ch - ln.length - 1)

/-- Embedding of `LineAndColOf`: the 1-based line and column of a trailing
clip within an input rune slice. -/
def LineAndColOf (input clip : List Char) : Int × Int :=
  lineColLoop (splitOnNL input) 0 ((input.length : Int) - (clip.length : Int))

/-- The line number recorded in a wrapped statement error: computed only
when both the program source and the statement source are nonempty,
otherwise left at the zero value of `var line int`. -/
def stmtLine (e : Executor) (stmt : Statement) : Int :=
  if 0 < e.input.length ∧ 0 < stmt.input.length
  then (LineAndColOf e.input stmt.input).1
  else 0

/-- The cached state of the lazy structured view: `none` before the first
demand, afterwards the recorded success or the recorded error string. -/
abbrev LazyState := Option (Except String Value)

/-- The outcome of materialising the structured view of `msg[index]`:
`"message is empty"` for a missing part (`ErrMessagePartNotExist`), a
`"parse as json: "`-prefixed error for a failed parse, or the parsed value. -/
def materialise (parse : ParseFn) (msg : Batch) (index : Nat) : Except String Value :=
  match msg.get? index with
  | none => .error "message is empty"
  | some p =>
    match partJSON parse p with
    | .ok v => .ok v
    | .error e => .error ("parse as json: " ++ e)

/-- One invocation of the `lazyValue` closure: on a cache miss call
`msg.Get(index).JSON()` and record the outcome; on a hit return the cached
outcome. The final component counts whether a `JSON()` materialisation was
performed (0 or 1). -/
def forceValue (parse : ParseFn) (msg : Batch) (index : Nat) :
    LazyState → Option Value × LazyState × Nat
  | none =>
    let r := materialise parse msg index
    (r.toOption, some r, 1)
  | some r => (r.toOption, some r, 0)

/-- Iterate `forceValue` the number of times the query demands it,
accumulating the materialisation count and keeping the last returned view. -/
def forceN (parse : ParseFn) (msg : Batch) (index : Nat) :
    Nat → LazyState → Option Value × LazyState × Nat
  | 0, lz => (none, lz, 0)
  | k + 1, lz =>
    let (v, lz', n) := forceValue parse msg index lz
    match k with
    | 0 => (v, lz', n)
    | k' + 1 =>
      let (v', lz'', n') := forceN parse msg index (k' + 1) lz'
      (v', lz'', n + n')

/-- Run one statement's query (`stmt.query.Exec` with the lazy value
closure): queries that never demand the view leave the cache untouched. -/
def runQuery (q : QueryFn) (vars : Vars) (parse : ParseFn) (msg : Batch) (index : Nat)
    (lz : LazyState) : Except QErr Value × LazyState × Nat :=
  if q.demands = 0 then (q.run vars none, lz, 0)
  else
    let (v, lz', n) := forceN parse msg index q.demands lz
    (q.run vars v, lz', n)

/-- A query error as wrapped by the executor: either the original error or,
when the lazy parse has failed and the query reported `ErrNoContext`, the
rewritten error chaining the recorded parse error. -/
inductive WrappedQErr where
  | plain (e : QErr)
  | noStructuredCtx (parseErr : String) (orig : QErr)
deriving DecidableEq

/-- The rewrite applied before wrapping a failed query: `ErrNoContext` is
replaced when a parse error was recorded. -/
def rewriteQErr (lz : LazyState) (qe : QErr) : WrappedQErr :=
  match lz, qe with
  | some (.error pe), .noContext => .noStructuredCtx pe .noContext
  | _, _ => .plain qe

/-- An error aborting a run of the statement loop. -/
inductive RunError where
  /-- `failed assignment (line L)` wrapping a query error. -/
  | failedAssignment (line : Int) (inner : WrappedQErr)
  /-- `failed to assign result (line L)` wrapping an assignment error. -/
  | failedToAssign (line : Int) (inner : String)
deriving DecidableEq

/-- The state threaded through the statement loops of `QueryPart` and
`mapPart`: variables, the optional part metadata, the working value, the
lazy-view cache, and the instrumented count of `JSON()` materialisations. -/
structure RunState where
  vars : Vars
  meta : Option Metadata
  value : Value
  lz : LazyState
  parses : Nat

/-- One iteration of the shared statement loop (`QueryPart` lines 115-147
and `mapPart` lines 211-244, which differ only in whether `Meta` is
populated): run the query, wrap failures with the statement's line, skip the
assignment entirely on `Nothing`, otherwise apply the assignment. -/
def execStatement (e : Executor) (parse : ParseFn) (msg : Batch) (index : Nat)
    (stmt : Statement) (st : RunState) : Except RunError RunState :=
  let rq := runQuery stmt.query st.vars parse msg index st.lz
  match rq.1 with
  | .error qe => .error (.failedAssignment (stmtLine e stmt) (rewriteQErr rq.2.1 qe))
  | .ok v =>
    match v with
    | .nothing => .ok { st with lz := rq.2.1, parses := st.parses + rq.2.2 }
    | v =>
      match stmt.assignment.apply v { vars := st.vars, meta := st.meta, value := st.value } with
      | .error ae => .error (.failedToAssign (stmtLine e stmt) ae)
      | .ok ctx =>
        .ok { vars := ctx.vars, meta := ctx.meta, value := ctx.value
              lz := rq.2.1, parses := st.parses + rq.2.2 }

/-- The statement loop: fold `execStatement` over the statements. -/
def runStmts (e : Executor) (parse : ParseFn) (msg : Batch) (index : Nat) :
    List Statement → RunState → Except RunError RunState
  | [], st => .ok st
  | stmt :: rest, st =>
    match execStatement e parse msg index stmt st with
    | .error er => .error er
    | .ok st' => runStmts e parse msg index rest st'

/-- Errors surfaced by the public entry points. -/
inductive MIErr where
  | runErr (e : RunError)
  /-- The type error of `QueryPart` naming the actual and expected types. -/
  | typeErr (actual expected : ValueType)
deriving DecidableEq

/-- The initial run state shared by `QueryPart` and `mapPart`: empty
variables, working value `Nothing`, lazy view not yet demanded. -/
def initState (meta : Option Metadata) (value : Value) : RunState :=
  { vars := [], meta := meta, value := value, lz := none, parses := 0 }

/-- Embedding of `(*Executor).QueryPart`: run the statements with no part
metadata available, then require the final working value to be a boolean. -/
def QueryPart (e : Executor) (parse : ParseFn) (index : Nat) (msg : Batch) :
    Except MIErr Bool :=
  match runStmts e parse msg index e.statements (initState none .nothing) with
  | .error er => .error (.runErr er)
  | .ok st =>
    match st.value with
    | .vBool b => .ok b
    | v => .error (.typeErr v.typeOf .TBool)

/-- The part a `mapPart` run mutates: a copy of the target part for
`MapPart` (`appendTo = nil`; a missing part is the empty part benthos
returns for an out-of-range `Get`), or the supplied part for `MapOnto`. -/
def mapPartBase (appendTo : Option Part) (index : Nat) (msg : Batch) : Part :=
  match appendTo with
  | none =>
    match msg.get? index with
    | some p => p
    | none => { raw := [], structured := none, meta := [] }
  | some p => p

/-- The initial working value of a `mapPart` run: `Nothing` for `MapPart`;
for `MapOnto` the JSON view of the supplied part when it parses, with a
parse failure silently ignored (`if appendObj, err := appendTo.JSON(); err
== nil`). -/
def mapPartSeed (parse : ParseFn) (appendTo : Option Part) : Value :=
  match appendTo with
  | none => .nothing
  | some p =>
    match partJSON parse p with
    | .ok v => v
    | .error _ => .nothing

/-- The result dispatch of `mapPart` (lines 246-264): `Delete` filters the
part, `Nothing` leaves its contents untouched, strings and byte slices
overwrite the raw payload, anything else is installed as structured JSON. -/
def dispatchResult (v : Value) (p : Part) : Option Part :=
  match v with
  | .delete => none
  | .nothing => some p
  | .vStr s => some (p.set (strBytes s))
  | .vBytes bs => some (p.set bs)
  | v => some (p.setJSON v)

/-- Embedding of `(*Executor).mapPart` (entered through `MapPart` when
`appendTo = none` and `MapOnto` otherwise): seed the part and working value,
run the statement loop with the part's metadata in scope, then dispatch the
final working value, retaining the metadata accumulated during the run. -/
def mapPart (e : Executor) (parse : ParseFn) (appendTo : Option Part) (index : Nat)
    (msg : Batch) : Except MIErr (Option Part) :=
  let base := mapPartBase appendTo index msg
  match runStmts e parse msg index e.statements
      (initState (some base.meta) (mapPartSeed parse appendTo)) with
  | .error er => .error (.runErr er)
  | .ok st => .ok (dispatchResult st.value { base with meta := st.meta.getD base.meta })

/-- Embedding of `(*Executor).MapPart`. -/
def MapPart (e : Executor) (parse : ParseFn) (index : Nat) (msg : Batch) :
    Except MIErr (Option Part) :=
  mapPart e parse none index msg

/-- Embedding of `(*Executor).MapOnto`. -/
def MapOnto (e : Executor) (parse : ParseFn) (part : Part) (index : Nat) (msg : Batch) :
    Except MIErr (Option Part) :=
  mapPart e parse (some part) index msg

/-- One iteration of the `Exec` loop: the caller's function context supplies
the variables and the (constant) structured view; assignments are applied
without metadata (`Meta` deliberately omitted in the source). -/
def execStep (e : Executor) (ctxValue : Option Value) (stmt : Statement)
    (st : Vars × Value) : Except RunError (Vars × Value) :=
  match stmt.query.run st.1 ctxValue with
  | .error qe => .error (.failedAssignment (stmtLine e stmt) (.plain qe))
  | .ok v =>
    match v with
    | .nothing => .ok st
    | v =>
      match stmt.assignment.apply v { vars := st.1, meta := none, value := st.2 } with
      | .error ae => .error (.failedToAssign (stmtLine e stmt) ae)
      | .ok ctx => .ok (ctx.vars, ctx.value)

/-- The loop of `(*Executor).Exec` over a list of statements. -/
def execStmts (e : Executor) (ctxValue : Option Value) :
    List Statement → Vars × Value → Except RunError (Vars × Value)
  | [], st => .ok st
  | stmt :: rest, st =>
    match execStep e ctxValue stmt st with
    | .error er => .error er
    | .ok st' => execStmts e ctxValue rest st'

/-- Embedding of `(*Executor).Exec`: start the working value at `Nothing`
and return it unchanged at the end. -/
def Exec (e : Executor) (ctxVars : Vars) (ctxValue : Option Value) :
    Except RunError Value :=
  match execStmts e ctxValue e.statements (ctxVars, .nothing) with
  | .error er => .error er
  | .ok st => .ok st.2

/-- One iteration of the `ExecOnto` loop: queries read the caller's
function-context variables (not the sink's), `Nothing` skips, any other
value is applied to the caller-supplied assignment sink. -/
def execOntoStep (e : Executor) (ctxVars : Vars) (ctxValue : Option Value)
    (stmt : Statement) (onto : AssignCtx) : Except RunError AssignCtx :=
  match stmt.query.run ctxVars ctxValue with
  | .error qe => .error (.failedAssignment (stmtLine e stmt) (.plain qe))
  | .ok v =>
    match v with
    | .nothing => .ok onto
    | v =>
      match stmt.assignment.apply v onto with
      | .error ae => .error (.failedToAssign (stmtLine e stmt) ae)
      | .ok onto' => .ok onto'

/-- The loop of `(*Executor).ExecOnto`. -/
def execOntoStmts (e : Executor) (ctxVars : Vars) (ctxValue : Option Value) :
    List Statement → AssignCtx → Except RunError AssignCtx
  | [], onto => .ok onto
  | stmt :: rest, onto =>
    match execOntoStep e ctxVars ctxValue stmt onto with
    | .error er => .error er
    | .ok onto' => execOntoStmts e ctxVars ctxValue rest onto'

/-- Embedding of `(*Executor).ExecOnto`. -/
def ExecOnto (e : Executor) (ctxVars : Vars) (ctxValue : Option Value)
    (onto : AssignCtx) : Except RunError AssignCtx :=
  execOntoStmts e ctxVars ctxValue e.statements onto

/-- A parser that rejects every payload, for exercising parse-failure
behaviour on concrete inputs. -/
def demoParseFail : ParseFn := fun _ => .error "invalid character"

/-- A concrete part with raw-only content. -/
def demoPart : Part := { raw := [123], structured := none, meta := [("k", "v")] }

/-- A concrete executor with no statements. -/
def demoExec : Executor := { annotation := "", input := [], maps := [], statements := [] }

/-- A concrete query whose `Exec` returns `Nothing` without demanding the
structured view. -/
def demoNothingQuery : QueryFn := { demands := 0, run := fun _ _ => .ok .nothing }

/-- A concrete statement built from `demoNothingQuery` and an identity
assignment. -/
def demoStmt : Statement :=
  { input := [], assignment := ⟨fun _ ctx => .ok ctx⟩, query := demoNothingQuery }

end Mapping

namespace Badger

/-- The buffer after pushing the one-byte message `[65]` into a fresh
buffer. -/
def c2Mid : Buffer :=
  { messageKeys := [sprintf020 0]
    pendingCtr := 1
    dbOpen := true
    seqAttached := true
    seqReleased := false
    seqNext := 1
    store := [(sprintf020 0, [65])] }

/-- The state reached from a fresh buffer by one push and one (unacked)
take: the pending list is empty while the pending counter is still 1. -/
def c2Demo : BufferEx :=
  ⟨{ messageKeys := []
     pendingCtr := 1
     dbOpen := true
     seqAttached := true
     seqReleased := false
     seqNext := 1
     store := [(sprintf020 0, [65])] }, [sprintf020 0]⟩

end Badger

section ClaimTheorems

open Badger Mapping

/-- C7 counterexample: for the nonempty input `"a"` and an empty clip,
`LineAndColOf` returns `(1, 2)`, not `(1, 1)`; the claim that an empty clip
always yields `(1, 1)` is therefore false. -/
theorem c7_lineAndColOf_counterexample :
    Mapping.LineAndColOf ['a'] [] ≠ (1, 1) := by decide

/-- C7 (amended): `LineAndColOf` computes the 1-based (line, column)
position of a trailing clip: for input `"a\nb\nc"` and the clip beginning
at `'c'` it returns `(3, 1)`, and it returns `(1, 1)` whenever both the
input slice and the clip slice are empty. -/
theorem c7_lineAndColOf :
    Mapping.LineAndColOf "a\nb\nc".data "c".data = (3, 1) ∧
    ∀ input clip : List Char, input = [] → clip = [] →
      Mapping.LineAndColOf input clip = (1, 1) := by
  refine ⟨by decide, ?_⟩
  intro input clip hi hc
  subst hi; subst hc
  decide

/-- C7 witness: the amended theorem applied at the empty input and clip. -/
theorem c7_lineAndColOf_witness :
    Mapping.LineAndColOf [] [] = (1, 1) :=
  c7_lineAndColOf.2 [] [] rfl rfl

end ClaimTheorems

section ClaimTheorems2

open Badger Mapping

/-- C3: result dispatch of `mapPart` (and hence `MapPart`/`MapOnto`): every
successful execution returns the dispatch of the final working value onto
the part carrying the accumulated metadata, and that dispatch filters the
part on `Delete`, returns it unchanged on `Nothing`, overwrites the raw
payload for strings and byte strings, and installs structured JSON content
for every other value. -/
theorem c3_mapPart_dispatch :
    (∀ (e : Executor) (parse : ParseFn) (appendTo : Option Part) (index : Nat)
        (msg : Batch) (st : RunState),
      runStmts e parse msg index e.statements
          (initState (some (mapPartBase appendTo index msg).meta)
            (mapPartSeed parse appendTo)) = .ok st →
      mapPart e parse appendTo index msg =
        .ok (dispatchResult st.value
          { mapPartBase appendTo index msg with
            meta := st.meta.getD (mapPartBase appendTo index msg).meta })) ∧
    (∀ p : Part,
      dispatchResult .delete p = none ∧
      dispatchResult .nothing p = some p ∧
      (∀ s, dispatchResult (.vStr s) p = some (p.set (strBytes s))) ∧
      (∀ bs, dispatchResult (.vBytes bs) p = some (p.set bs)) ∧
      (∀ v : Value, v ≠ .delete → v ≠ .nothing → (∀ s, v ≠ .vStr s) →
        (∀ bs, v ≠ .vBytes bs) → dispatchResult v p = some (p.setJSON v))) := by
  constructor
  · intro e parse appendTo index msg st h
    simp [mapPart, h]
  · intro p
    refine ⟨rfl, rfl, fun s => rfl, fun bs => rfl, ?_⟩
    intro v h1 h2 h3 h4
    cases v with
    | delete => exact absurd rfl h1
    | nothing => exact absurd rfl h2
    | vStr s => exact absurd rfl (h3 s)
    | vBytes bs => exact absurd rfl (h4 bs)
    | vBool b => rfl
    | vNum n => rfl
    | vNull => rfl

/-- C3 witness: the dispatch equation applied to a successful run of the
empty mapping over a one-part batch. -/
theorem c3_mapPart_dispatch_witness :
    mapPart demoExec demoParseFail none 0 [demoPart] =
      .ok (dispatchResult (initState (some demoPart.meta) Value.nothing).value
        { mapPartBase none 0 [demoPart] with meta := demoPart.meta }) :=
  c3_mapPart_dispatch.1 demoExec demoParseFail none 0 [demoPart]
    (initState (some demoPart.meta) Value.nothing) rfl

/-- C4: `QueryPart` returns `true` exactly when the final working value is
the boolean `true`, `false` when it is the boolean `false`, and for every
non-boolean final value fails with a type error naming the actual type and
the expected type bool. -/
theorem c4_queryPart_bool :
    ∀ (e : Executor) (parse : ParseFn) (index : Nat) (msg : Batch) (st : RunState),
      runStmts e parse msg index e.statements (initState none .nothing) = .ok st →
      (st.value = .vBool true → QueryPart e parse index msg = .ok true) ∧
      (st.value = .vBool false → QueryPart e parse index msg = .ok false) ∧
      ((∀ b, st.value ≠ .vBool b) →
        QueryPart e parse index msg = .error (.typeErr st.value.typeOf .TBool)) := by
  intro e parse index msg st h
  refine ⟨fun hv => by simp [QueryPart, h, hv], fun hv => by simp [QueryPart, h, hv], ?_⟩
  intro hv
  cases hval : st.value with
  | vBool b => exact absurd hval (hv b)
  | nothing => simp [QueryPart, h, hval, Value.typeOf]
  | delete => simp [QueryPart, h, hval, Value.typeOf]
  | vStr s => simp [QueryPart, h, hval, Value.typeOf]
  | vBytes bs => simp [QueryPart, h, hval, Value.typeOf]
  | vNum n => simp [QueryPart, h, hval, Value.typeOf]
  | vNull => simp [QueryPart, h, hval, Value.typeOf]

/-- C4 witness: the empty mapping leaves the working value at `Nothing`, so
`QueryPart` fails with a type error naming `Nothing` and bool. -/
theorem c4_queryPart_bool_witness :
    QueryPart demoExec demoParseFail 0 [] = .error (.typeErr .TNothing .TBool) :=
  (c4_queryPart_bool demoExec demoParseFail 0 []
      (initState none .nothing) rfl).2.2
    (fun _ h => Value.noConfusion h)

end ClaimTheorems2

section ClaimTheorems3

open Badger Mapping

/-- C5: in every execution entry point, a statement whose query evaluates to
`Nothing` is skipped entirely: the working value, the per-run variables and
the part's metadata are unchanged and the assignment is never applied (the
step's outcome does not depend on the statement's assignment at all). -/
theorem c5_nothing_skips :
    (∀ (e : Executor) (parse : ParseFn) (msg : Batch) (index : Nat)
        (stmt : Statement) (st : RunState),
      (runQuery stmt.query st.vars parse msg index st.lz).1 = .ok .nothing →
      ∃ st', execStatement e parse msg index stmt st = .ok st' ∧
        st'.vars = st.vars ∧ st'.meta = st.meta ∧ st'.value = st.value ∧
        ∀ a, execStatement e parse msg index { stmt with assignment := a } st =
          execStatement e parse msg index stmt st) ∧
    (∀ (e : Executor) (ctxValue : Option Value) (stmt : Statement) (st : Vars × Value),
      stmt.query.run st.1 ctxValue = .ok .nothing →
      execStep e ctxValue stmt st = .ok st ∧
      ∀ a, execStep e ctxValue { stmt with assignment := a } st = .ok st) ∧
    (∀ (e : Executor) (ctxVars : Vars) (ctxValue : Option Value)
        (stmt : Statement) (onto : AssignCtx),
      stmt.query.run ctxVars ctxValue = .ok .nothing →
      execOntoStep e ctxVars ctxValue stmt onto = .ok onto ∧
      ∀ a, execOntoStep e ctxVars ctxValue { stmt with assignment := a } onto = .ok onto) := by
  refine ⟨?_, ?_, ?_⟩
  · intro e parse msg index stmt st h
    rcases hrq : runQuery stmt.query st.vars parse msg index st.lz with ⟨res, lz', n⟩
    rw [hrq] at h
    simp only at h
    subst h
    refine ⟨{ st with lz := lz', parses := st.parses + n }, ?_, rfl, rfl, rfl, ?_⟩
    · simp [execStatement, hrq]
    · intro a
      simp [execStatement, hrq]
  · intro e ctxValue stmt st h
    constructor
    · simp [execStep, h]
    · intro a
      simp [execStep, h]
  · intro e ctxVars ctxValue stmt onto h
    constructor
    · simp [execOntoStep, h]
    · intro a
      simp [execOntoStep, h]

/-- C5 witness: the skip behaviour at a concrete `Nothing`-returning
statement in the `Exec` entry point. -/
theorem c5_nothing_skips_witness :
    execStep demoExec none demoStmt ([], .nothing) = .ok ([], .nothing) :=
  (c5_nothing_skips.2.1 demoExec none demoStmt ([], .nothing) rfl).1

/-- C10: when `mapPart` seeds the initial working value from the target part
(`MapOnto`), a failing JSON parse of that part is silently swallowed: the
seed is `Nothing`, no error is returned from seeding, and the run proceeds
as the ordinary statement loop followed by result dispatch. -/
theorem c10_mapOnto_seed_swallows_parse_error :
    ∀ (e : Executor) (parse : ParseFn) (p : Part) (index : Nat) (msg : Batch)
      (err : String),
      partJSON parse p = .error err →
      mapPartSeed parse (some p) = .nothing ∧
      MapOnto e parse p index msg =
        (match runStmts e parse msg index e.statements
            (initState (some p.meta) .nothing) with
         | .error er => .error (.runErr er)
         | .ok st => .ok (dispatchResult st.value { p with meta := st.meta.getD p.meta })) := by
  intro e parse p index msg err h
  have hseed : mapPartSeed parse (some p) = .nothing := by
    simp [mapPartSeed, h]
  refine ⟨hseed, ?_⟩
  simp only [MapOnto, mapPart, mapPartBase, hseed]

/-- C10 witness: a concrete part whose parse fails seeds `Nothing` for the
empty mapping. -/
theorem c10_mapOnto_seed_swallows_parse_error_witness :
    partJSON demoParseFail demoPart = .error "invalid character" ∧
    mapPartSeed demoParseFail (some demoPart) = .nothing :=
  ⟨rfl, (c10_mapOnto_seed_swallows_parse_error demoExec demoParseFail demoPart 0 []
    "invalid character" rfl).1⟩

/-- C8 counterexample: an ack handle obtained from a take, invoked with
`positive = false` after the buffer has been closed, returns the
closed-status error rather than succeeding. -/
theorem c8_negative_ack_counterexample :
    (do
      let (_, b1) ← PushMessage [65] freshBuffer
      let (_, k, b2) ← NextMessage b1
      AckFunc k false (Close b2)) =
    (.error .typeClosed : Except BufErr (Nat × Buffer)) := rfl

/-- C8 (amended): a negative ack succeeds in every open buffer state, where
it only re-inserts the key at the head of the in-memory pending list; on a
closed buffer it instead returns the closed-status error. -/
theorem c8_negative_ack :
    ∀ (key : Key) (b : Buffer),
      (b.dbOpen = true →
        AckFunc key false b =
          .ok (storeSize b.store, { b with messageKeys := key :: b.messageKeys })) ∧
      (b.dbOpen = false → AckFunc key false b = .error .typeClosed) := by
  intro key b
  constructor <;> intro h <;> simp [AckFunc, h]

/-- C8 witness: a negative ack on the fresh (open) buffer succeeds and
re-inserts the key at the head. -/
theorem c8_negative_ack_witness :
    AckFunc (sprintf020 0) false freshBuffer =
      .ok (storeSize freshBuffer.store,
        { freshBuffer with messageKeys := [sprintf020 0] }) :=
  (c8_negative_ack (sprintf020 0) freshBuffer).1 rfl

/-- C9: contrary to the claim, neither close path releases the reserved
sequence: `cleanUpBadger` (reached from both `Close` and `CloseOnceEmpty`)
closes the KV store and drops the sequence handle without returning the
reserved keys, so a buffer that never called `Release` is closed with the
lease still unreturned. -/
theorem c9_close_does_not_release_sequence :
    (∀ b : Buffer,
      (Close b).seqReleased = b.seqReleased ∧
      (CloseOnceEmpty b).seqReleased = b.seqReleased ∧
      (Close b).dbOpen = false ∧ (CloseOnceEmpty b).dbOpen = false) ∧
    (Close freshBuffer).seqReleased = false ∧
    (CloseOnceEmpty freshBuffer).seqReleased = false := by
  refine ⟨fun b => ⟨rfl, rfl, rfl, rfl⟩, rfl, rfl⟩

end ClaimTheorems3

section ClaimTheorems4

open Badger Mapping

/-- A repeat demand of the lazy view returns the cached outcome and performs
no materialisation. -/
theorem forceN_some (parse : ParseFn) (msg : Batch) (index : Nat) :
    ∀ (k : Nat) (r : Except String Value),
      forceN parse msg index (k + 1) (some r) = (r.toOption, some r, 0) := by
  intro k
  induction k with
  | zero => intro r; rfl
  | succ k ih =>
    intro r
    simp [forceN, forceValue, ih r]

/-- The first demand of the lazy view materialises exactly once and caches
the outcome, success or failure alike. -/
theorem forceN_none (parse : ParseFn) (msg : Batch) (index : Nat) :
    ∀ k : Nat,
      forceN parse msg index (k + 1) none =
        ((materialise parse msg index).toOption, some (materialise parse msg index), 1) := by
  intro k
  cases k with
  | zero => rfl
  | succ k =>
    simp [forceN, forceValue, forceN_some parse msg index k (materialise parse msg index)]

/-- The cache component of a query run either survives unchanged with no
materialisation, or transitions from empty to the recorded outcome with
exactly one materialisation. -/
theorem runQuery_cache (q : QueryFn) (vars : Vars) (parse : ParseFn) (msg : Batch)
    (index : Nat) (lz : LazyState) :
    ((runQuery q vars parse msg index lz).2.1 = lz ∧
      (runQuery q vars parse msg index lz).2.2 = 0) ∨
    (lz = none ∧
      (runQuery q vars parse msg index lz).2.1 = some (materialise parse msg index) ∧
      (runQuery q vars parse msg index lz).2.2 = 1) := by
  unfold runQuery
  rcases hd : q.demands with _ | d
  · left; simp
  · cases lz with
    | none =>
      right
      simp [forceN_none parse msg index d]
    | some r =>
      left
      simp [forceN_some parse msg index d r]

/-- A successful statement step carries over exactly the cache and count
produced by its query run. -/
theorem execStatement_ok_fields {e : Executor} {parse : ParseFn} {msg : Batch}
    {index : Nat} {stmt : Statement} {st st' : RunState}
    (h : execStatement e parse msg index stmt st = .ok st') :
    st'.lz = (runQuery stmt.query st.vars parse msg index st.lz).2.1 ∧
    st'.parses = st.parses + (runQuery stmt.query st.vars parse msg index st.lz).2.2 := by
  unfold execStatement at h
  rcases hrq : runQuery stmt.query st.vars parse msg index st.lz with ⟨res, lz', n⟩
  rw [hrq] at h
  simp only at h
  split at h
  · exact absurd h (by simp)
  · split at h
    · cases h; exact ⟨rfl, rfl⟩
    · split at h
      · exact absurd h (by simp)
      · cases h; exact ⟨rfl, rfl⟩

/-- The statement loop materialises the structured view at most once: from a
state whose counter respects the cache, the final counter still does. -/
theorem runStmts_parses {e : Executor} {parse : ParseFn} {msg : Batch} {index : Nat} :
    ∀ (stmts : List Statement) (st st' : RunState),
      runStmts e parse msg index stmts st = .ok st' →
      (st.lz = none → st.parses = 0) → st.parses ≤ 1 →
      ((st'.lz = none → st'.parses = 0) ∧ st'.parses ≤ 1) := by
  intro stmts
  induction stmts with
  | nil =>
    intro st st' h h0 h1
    cases h
    exact ⟨h0, h1⟩
  | cons stmt rest ih =>
    intro st st' h h0 h1
    unfold runStmts at h
    revert h
    cases hstep : execStatement e parse msg index stmt st with
    | error er => intro h; exact absurd h (by simp)
    | ok stMid =>
      intro h
      obtain ⟨hlz, hp⟩ := execStatement_ok_fields hstep
      rcases runQuery_cache stmt.query st.vars parse msg index st.lz with
        ⟨hc1, hc2⟩ | ⟨hnone, hc1, hc2⟩
      · exact ih stMid st' h
          (by rw [hlz, hc1, hp, hc2]; intro hh; exact Nat.add_zero st.parses ▸ h0 hh)
          (by rw [hp, hc2]; exact h1)
      · refine ih stMid st' h ?_ ?_
        · rw [hlz, hc1]
          intro hh
          exact absurd hh (by simp)
        · rw [hp, hc2, h0 hnone]

/-- A statement whose query never demands the view leaves the cache and the
count untouched. -/
theorem runStmts_nodemand {e : Executor} {parse : ParseFn} {msg : Batch} {index : Nat} :
    ∀ (stmts : List Statement) (st st' : RunState),
      (∀ s ∈ stmts, s.query.demands = 0) →
      runStmts e parse msg index stmts st = .ok st' →
      st'.lz = st.lz ∧ st'.parses = st.parses := by
  intro stmts
  induction stmts with
  | nil =>
    intro st st' _ h
    cases h
    exact ⟨rfl, rfl⟩
  | cons stmt rest ih =>
    intro st st' hd h
    unfold runStmts at h
    revert h
    cases hstep : execStatement e parse msg index stmt st with
    | error er => intro h; exact absurd h (by simp)
    | ok stMid =>
      intro h
      obtain ⟨hlz, hp⟩ := execStatement_ok_fields hstep
      have hq0 : stmt.query.demands = 0 := hd stmt (List.mem_cons_self stmt rest)
      have hrq : runQuery stmt.query st.vars parse msg index st.lz =
          (stmt.query.run st.vars none, st.lz, 0) := by
        simp [runQuery, hq0]
      rw [hrq] at hlz hp
      obtain ⟨h1, h2⟩ := ih stMid st' (fun s hs => hd s (List.mem_cons_of_mem stmt hs)) h
      rw [h1, h2, hlz, hp]
      exact ⟨rfl, rfl⟩

/-- C6: within one execution of `QueryPart` or `mapPart` (whose loops both
start from `initState`, with the cache empty and no materialisations), the
structured view is materialised at most once; an execution whose queries
never demand the view performs no materialisation at all; and any repeat
demand returns the cached outcome — recorded by the first demand, success or
failure alike — without re-parsing. -/
theorem c6_lazy_parse_memoisation :
    (∀ (e : Executor) (parse : ParseFn) (msg : Batch) (index : Nat)
        (meta : Option Metadata) (v0 : Value) (st : RunState),
      runStmts e parse msg index e.statements (initState meta v0) = .ok st →
      st.parses ≤ 1 ∧
      ((∀ stmt ∈ e.statements, stmt.query.demands = 0) →
        st.parses = 0 ∧ st.lz = none)) ∧
    (∀ (parse : ParseFn) (msg : Batch) (index : Nat) (k : Nat) (r : Except String Value),
      forceN parse msg index (k + 1) (some r) = (r.toOption, some r, 0)) ∧
    (∀ (parse : ParseFn) (msg : Batch) (index : Nat) (k : Nat),
      forceN parse msg index (k + 1) none =
        ((materialise parse msg index).toOption, some (materialise parse msg index), 1)) := by
  refine ⟨?_, forceN_some, forceN_none⟩
  intro e parse msg index meta v0 st h
  constructor
  · exact (runStmts_parses e.statements (initState meta v0) st h
      (fun _ => rfl) (by simp [initState])).2
  · intro hd
    obtain ⟨h1, h2⟩ := runStmts_nodemand e.statements (initState meta v0) st hd h
    exact ⟨h2, h1⟩

/-- C6 witness: the memoisation bound applied to a successful run of the
empty mapping, whose queries trivially never demand the view. -/
theorem c6_lazy_parse_memoisation_witness :
    (initState none Value.nothing).parses ≤ 1 ∧
    ((initState none Value.nothing).parses = 0 ∧
      (initState none Value.nothing).lz = none) :=
  ⟨(c6_lazy_parse_memoisation.1 demoExec demoParseFail [] 0 none .nothing
      (initState none .nothing) rfl).1,
   (c6_lazy_parse_memoisation.1 demoExec demoParseFail [] 0 none .nothing
      (initState none .nothing) rfl).2
     (by intro s hs; simp [demoExec] at hs)⟩

end ClaimTheorems4

section ClaimTheorems5

open Badger Mapping

/-- Anatomy of a successful push: the buffer was open and the result appends
the freshly printed key at the tail, persists the record, advances the
sequence and increments the counter. -/
theorem PushMessage_ok {m : Msg} {b : Buffer} {n : Nat} {b' : Buffer}
    (h : PushMessage m b = .ok (n, b')) :
    b.dbOpen = true ∧
    n = storeSize ((sprintf020 b.seqNext, m) :: b.store) ∧
    b' = { b with
           store := (sprintf020 b.seqNext, m) :: b.store
           seqNext := b.seqNext + 1
           messageKeys := b.messageKeys ++ [sprintf020 b.seqNext]
           pendingCtr := b.pendingCtr + 1 } := by
  revert h
  unfold PushMessage
  split
  · intro h; exact absurd h (by simp)
  · next hcond =>
    intro h
    simp only [Except.ok.injEq, Prod.mk.injEq] at h
    refine ⟨by revert hcond; cases b.dbOpen <;> simp, h.1.symm, h.2.symm⟩

/-- Anatomy of a successful take: the buffer was open, the returned key was
the head of the pending list, its record was read back, and only the head
removal changed the state. -/
theorem NextMessage_ok {b : Buffer} {m : Msg} {k : Key} {b' : Buffer}
    (h : NextMessage b = .ok (m, k, b')) :
    b.dbOpen = true ∧
    ∃ rest, b.messageKeys = k :: rest ∧
      lookupStore b.store k = some m ∧
      b' = { b with messageKeys := rest } := by
  revert h
  unfold NextMessage
  split
  · intro h; exact absurd h (by simp)
  · next hcond =>
    split
    · intro h; exact absurd h (by simp)
    · next key rest hkeys =>
      split
      · next m' hlook =>
        intro h
        simp only [Except.ok.injEq, Prod.mk.injEq] at h
        obtain ⟨hm, hk, hb⟩ := h
        subst hm; subst hk
        exact ⟨by revert hcond; cases b.dbOpen <;> simp,
          rest, hkeys, hlook, hb.symm⟩
      · intro h; exact absurd h (by simp)

/-- Anatomy of a successful positive ack: the buffer was open, the record is
deleted and the counter decremented; the pending list is untouched. -/
theorem AckFunc_ok_pos {k : Key} {b : Buffer} {n : Nat} {b' : Buffer}
    (h : AckFunc k true b = .ok (n, b')) :
    b.dbOpen = true ∧
    b' = { b with store := eraseStoreKey b.store k, pendingCtr := b.pendingCtr - 1 } := by
  revert h
  unfold AckFunc
  split
  · intro h; exact absurd h (by simp)
  · next hcond =>
    split
    · intro h
      simp only [Except.ok.injEq, Prod.mk.injEq] at h
      exact ⟨by revert hcond; cases b.dbOpen <;> simp, h.2.symm⟩
    · next hack => exact absurd rfl hack

/-- Anatomy of a successful negative ack: the buffer was open and the key is
re-inserted at the head; counter and store are untouched. -/
theorem AckFunc_ok_neg {k : Key} {b : Buffer} {n : Nat} {b' : Buffer}
    (h : AckFunc k false b = .ok (n, b')) :
    b.dbOpen = true ∧
    b' = { b with messageKeys := k :: b.messageKeys } := by
  revert h
  unfold AckFunc
  split
  · intro h; exact absurd h (by simp)
  · next hcond =>
    split
    · next hack => exact absurd hack (by simp)
    · intro h
      simp only [Except.ok.injEq, Prod.mk.injEq] at h
      exact ⟨by revert hcond; cases b.dbOpen <;> simp, h.2.symm⟩

/-- C2 counterexample: the state reached by one push followed by one take
whose message is not yet acked is reachable and quiescent, yet its pending
counter is 1 while its pending-key list is empty — the counter counts
unacked records, not pending-list entries. -/
theorem c2_pending_count_counterexample :
    Reachable c2Demo ∧
    c2Demo.buf.pendingCtr ≠ (c2Demo.buf.messageKeys.length : Int) := by
  constructor
  · have h1 : PushMessage [65] freshBuffer = .ok (1, c2Mid) := rfl
    have h2 : NextMessage c2Mid = .ok ([65], sprintf020 0, c2Demo.buf) := rfl
    exact Reachable.take (s := ⟨c2Mid, []⟩)
      (Reachable.push (s := ⟨freshBuffer, []⟩) Reachable.fresh h1) h2
  · decide

/-- C2 (amended): in every reachable quiescent state (each ack handle
invoked at most once, no KV failures), the pending counter equals the length
of the pending-key list plus the number of taken-but-unacked messages; the
two agree exactly when nothing is in flight, and after a take whose message
has not been acked they differ by one. -/
theorem c2_pending_count_invariant :
    ∀ s : BufferEx, Reachable s →
      s.buf.pendingCtr = (s.buf.messageKeys.length : Int) + s.inFlight.length := by
  intro s h
  induction h with
  | fresh => rfl
  | push hr hp ih =>
    obtain ⟨-, -, hb⟩ := PushMessage_ok hp
    subst hb
    simp only [List.length_append, List.length_cons, List.length_nil]
    push_cast
    omega
  | take hr hp ih =>
    obtain ⟨-, rest, hkeys, -, hb⟩ := NextMessage_ok hp
    subst hb
    simp only [hkeys, List.length_cons] at ih
    simp only [List.length_cons]
    push_cast at ih ⊢
    omega
  | ackPos hr hk hp ih =>
    obtain ⟨-, hb⟩ := AckFunc_ok_pos hp
    subst hb
    have hlen := List.length_erase_of_mem hk
    have hpos := List.length_pos_of_mem hk
    rw [hlen]
    push_cast [Nat.cast_sub hpos]
    push_cast at ih
    omega
  | ackNeg hr hk hp ih =>
    obtain ⟨-, hb⟩ := AckFunc_ok_neg hp
    subst hb
    have hlen := List.length_erase_of_mem hk
    have hpos := List.length_pos_of_mem hk
    simp only [List.length_cons, hlen]
    push_cast [Nat.cast_sub hpos]
    push_cast at ih
    omega
  | close hr ih =>
    simpa [Close, cleanUpBadger] using ih

/-- C2 witness: the invariant applied at the freshly opened buffer. -/
theorem c2_pending_count_invariant_witness :
    (⟨freshBuffer, []⟩ : BufferEx).buf.pendingCtr =
      ((⟨freshBuffer, []⟩ : BufferEx).buf.messageKeys.length : Int) +
        (⟨freshBuffer, []⟩ : BufferEx).inFlight.length :=
  c2_pending_count_invariant ⟨freshBuffer, []⟩ Reachable.fresh

end ClaimTheorems5

section KeyLemmas

open Badger

/-- Folding the Horner step from any accumulator splits into the
accumulator's contribution and the digits' value. -/
theorem hornerAcc : ∀ (l : List Nat) (a : Nat),
    List.foldl (fun x d => 10 * x + d) a l = a * 10 ^ l.length + hornerVal l := by
  intro l
  induction l with
  | nil => intro a; simp [hornerVal]
  | cons d l ih =>
    intro a
    simp only [List.foldl_cons, List.length_cons, hornerVal] at ih ⊢
    rw [ih (10 * a + d), ih (10 * 0 + d)]
    ring

/-- Horner value of a cons. -/
theorem hornerVal_cons (x : Nat) (xs : List Nat) :
    hornerVal (x :: xs) = x * 10 ^ xs.length + hornerVal xs := by
  simp only [hornerVal, List.foldl_cons]
  rw [hornerAcc]
  simp only [hornerVal]
  ring

/-- Horner value of a snoc. -/
theorem hornerVal_append_singleton (xs : List Nat) (d : Nat) :
    hornerVal (xs ++ [d]) = 10 * hornerVal xs + d := by
  simp only [hornerVal, List.foldl_append, List.foldl_cons, List.foldl_nil]

/-- A list of decimal digits evaluates below the power of ten of its
length. -/
theorem hornerBound : ∀ l : List Nat, (∀ d ∈ l, d < 10) → hornerVal l < 10 ^ l.length := by
  intro l
  induction l with
  | nil => intro _; simp [hornerVal]
  | cons d l ih =>
    intro hd
    rw [hornerVal_cons]
    simp only [List.length_cons]
    have h1 : hornerVal l < 10 ^ l.length := ih (fun x hx => hd x (List.mem_cons_of_mem d hx))
    have h2 : d < 10 := hd d (List.mem_cons_self d l)
    calc d * 10 ^ l.length + hornerVal l < d * 10 ^ l.length + 10 ^ l.length := by omega
      _ = (d + 1) * 10 ^ l.length := by ring
      _ ≤ 10 * 10 ^ l.length := Nat.mul_le_mul_right _ (by omega)
      _ = 10 ^ (l.length + 1) := by ring

/-- Every produced digit is a decimal digit. -/
theorem digitsLEAux_lt : ∀ fuel n : Nat, ∀ d ∈ digitsLEAux fuel n, d < 10 := by
  intro fuel
  induction fuel with
  | zero => intro n d hd; simp [digitsLEAux] at hd
  | succ fuel ih =>
    intro n d hd
    by_cases hz : n = 0
    · simp [digitsLEAux, hz] at hd
    · simp only [digitsLEAux, if_neg hz] at hd
      rcases List.mem_cons.mp hd with h | h
      · subst h; exact Nat.mod_lt n (by omega)
      · exact ih (n / 10) d h

/-- With enough fuel, the digits evaluate back to the number. -/
theorem hornerVal_digitsLEAux : ∀ fuel n : Nat, n ≤ fuel →
    hornerVal ((digitsLEAux fuel n).reverse) = n := by
  intro fuel
  induction fuel with
  | zero =>
    intro n hn
    have : n = 0 := by omega
    subst this
    simp [digitsLEAux, hornerVal]
  | succ fuel ih =>
    intro n hn
    by_cases hz : n = 0
    · subst hz; simp [digitsLEAux, hornerVal]
    · simp only [digitsLEAux, if_neg hz, List.reverse_cons]
      rw [hornerVal_append_singleton]
      have hdiv : n / 10 ≤ fuel := by
        have := Nat.div_lt_self (Nat.pos_of_ne_zero hz) (by omega : 1 < 10)
        omega
      rw [ih (n / 10) hdiv]
      exact Nat.div_add_mod n 10

/-- The digit list of a number below `10 ^ k` has at most `k` digits. -/
theorem digitsLEAux_length : ∀ fuel n k : Nat, n < 10 ^ k →
    (digitsLEAux fuel n).length ≤ k := by
  intro fuel
  induction fuel with
  | zero => intro n k _; simp [digitsLEAux]
  | succ fuel ih =>
    intro n k hk
    by_cases hz : n = 0
    · simp [digitsLEAux, hz]
    · simp only [digitsLEAux, if_neg hz, List.length_cons]
      have hkpos : 0 < k := by
        rcases Nat.eq_zero_or_pos k with h | h
        · subst h; simp at hk; omega
        · exact h
      have hdivlt : n / 10 < 10 ^ (k - 1) := by
        rw [Nat.div_lt_iff_lt_mul (by omega : 0 < 10)]
        calc n < 10 ^ k := hk
          _ = 10 ^ (k - 1) * 10 := by
            rw [← pow_succ]
            congr 1
            omega
      have := ih (n / 10) (k - 1) hdivlt
      omega

/-- Leading zeros do not change the Horner value. -/
theorem hornerVal_replicate_zero_append (k : Nat) (xs : List Nat) :
    hornerVal (List.replicate k 0 ++ xs) = hornerVal xs := by
  simp only [hornerVal, List.foldl_append]
  have hz : List.foldl (fun x d => 10 * x + d) 0 (List.replicate k 0) = 0 := by
    induction k with
    | zero => rfl
    | succ k ih => simpa [List.replicate_succ, List.foldl_cons] using ih
  rw [hz]

/-- The padded digit list of `n < 10^20` has exactly 20 entries. -/
theorem pad20_length {n : Nat} (h : n < 10 ^ 20) : (pad20 n).length = 20 := by
  have hlen : (digitsLE n).length ≤ 20 := digitsLEAux_length n n 20 h
  simp only [pad20, List.length_append, List.length_replicate, List.length_reverse]
  omega

/-- Every entry of the padded digit list is a decimal digit. -/
theorem pad20_digits_lt (n : Nat) : ∀ d ∈ pad20 n, d < 10 := by
  intro d hd
  simp only [pad20, List.mem_append, List.mem_replicate, List.mem_reverse] at hd
  rcases hd with ⟨-, h⟩ | h
  · omega
  · exact digitsLEAux_lt n n d h

/-- The padded digit list evaluates back to the number. -/
theorem hornerVal_pad20 (n : Nat) : hornerVal (pad20 n) = n := by
  unfold pad20
  rw [hornerVal_replicate_zero_append]
  exact hornerVal_digitsLEAux n n le_rfl

/-- Decoding a printed key recovers the sequence number. -/
theorem decodeKey_sprintf020 (n : Nat) : decodeKey (sprintf020 n) = n := by
  unfold decodeKey sprintf020
  rw [List.foldl_map]
  have hfun : (fun (x d : Nat) => 10 * x + (48 + d - 48)) = fun x d => 10 * x + d := by
    funext x d
    omega
  rw [hfun]
  exact hornerVal_pad20 n

/-- Printed keys are distinct for distinct sequence numbers. -/
theorem sprintf020_injective : Function.Injective sprintf020 := by
  intro a b h
  have := congrArg decodeKey h
  rwa [decodeKey_sprintf020, decodeKey_sprintf020] at this

/-- Adding the ASCII offset to both sides preserves the byte order. -/
theorem bytesLt_map_add48 : ∀ xs ys : List Nat,
    bytesLt (xs.map (fun d => 48 + d)) (ys.map (fun d => 48 + d)) = bytesLt xs ys := by
  intro xs
  induction xs with
  | nil => intro ys; cases ys <;> rfl
  | cons x xs ih =>
    intro ys
    cases ys with
    | nil => rfl
    | cons y ys =>
      simp only [List.map_cons, bytesLt]
      rcases Nat.lt_trichotomy x y with h | h | h
      · rw [if_pos (by omega : 48 + x < 48 + y), if_pos h]
      · subst h
        rw [if_neg (by omega : ¬48 + x < 48 + x), if_neg (lt_irrefl x),
          if_neg (by omega : ¬48 + x < 48 + x), if_neg (lt_irrefl x)]
        exact ih ys
      · rw [if_neg (by omega : ¬48 + x < 48 + y), if_neg (by omega : ¬x < y),
          if_pos (by omega : 48 + y < 48 + x), if_pos h]

/-- On equal-length decimal-digit lists, byte order agrees with numeric
order of the evaluated numbers. -/
theorem bytesLt_iff_hornerVal : ∀ xs ys : List Nat, xs.length = ys.length →
    (∀ d ∈ xs, d < 10) → (∀ d ∈ ys, d < 10) →
    (bytesLt xs ys = true ↔ hornerVal xs < hornerVal ys) := by
  intro xs
  induction xs with
  | nil =>
    intro ys hlen _ _
    have : ys = [] := List.eq_nil_of_length_eq_zero hlen.symm
    subst this
    simp [bytesLt]
  | cons x xs ih =>
    intro ys hlen hx hy
    cases ys with
    | nil => simp at hlen
    | cons y ys =>
      simp only [List.length_cons] at hlen
      have hlen' : xs.length = ys.length := by omega
      rw [hornerVal_cons, hornerVal_cons, hlen']
      have hbx : hornerVal xs < 10 ^ ys.length := by
        rw [← hlen']
        exact hornerBound xs (fun d hd => hx d (List.mem_cons_of_mem x hd))
      have hby : hornerVal ys < 10 ^ ys.length := hornerBound ys (fun d hd => hy d (List.mem_cons_of_mem y hd))
      simp only [bytesLt]
      rcases Nat.lt_trichotomy x y with h | h | h
      · rw [if_pos h]
        refine ⟨fun _ => ?_, fun _ => rfl⟩
        calc x * 10 ^ ys.length + hornerVal xs
            < x * 10 ^ ys.length + 10 ^ ys.length := Nat.add_lt_add_left hbx _
          _ = (x + 1) * 10 ^ ys.length := by ring
          _ ≤ y * 10 ^ ys.length := Nat.mul_le_mul_right _ (by omega)
          _ ≤ y * 10 ^ ys.length + hornerVal ys := Nat.le_add_right _ _
      · subst h
        rw [if_neg (lt_irrefl x), if_neg (lt_irrefl x), Nat.add_lt_add_iff_left]
        exact ih ys hlen' (fun d hd => hx d (List.mem_cons_of_mem x hd))
          (fun d hd => hy d (List.mem_cons_of_mem x hd))
      · rw [if_neg (by omega : ¬x < y), if_pos h]
        constructor
        · intro hff
          exact absurd hff (by simp)
        · intro hlt
          exfalso
          have : y * 10 ^ ys.length + hornerVal ys < x * 10 ^ ys.length + hornerVal xs := by
            calc y * 10 ^ ys.length + hornerVal ys
                < y * 10 ^ ys.length + 10 ^ ys.length := Nat.add_lt_add_left hby _
              _ = (y + 1) * 10 ^ ys.length := by ring
              _ ≤ x * 10 ^ ys.length := Nat.mul_le_mul_right _ (by omega)
              _ ≤ x * 10 ^ ys.length + hornerVal xs := Nat.le_add_right _ _
          omega

/-- The printed key of `n < 10^20` is exactly 20 bytes long. -/
theorem sprintf020_length {n : Nat} (h : n < 10 ^ 20) : (sprintf020 n).length = 20 := by
  unfold sprintf020
  rw [List.length_map]
  exact pad20_length h

/-- Every byte of a printed key is an ASCII decimal digit. -/
theorem sprintf020_digits (n : Nat) : ∀ c ∈ sprintf020 n, 48 ≤ c ∧ c ≤ 57 := by
  intro c hc
  simp only [sprintf020, List.mem_map] at hc
  obtain ⟨d, hd, rfl⟩ := hc
  have := pad20_digits_lt n d hd
  omega

/-- Byte order of printed keys agrees with numeric order, for all sequence
numbers below `10^20` (in particular for the whole `uint64` range). -/
theorem sprintf020_lt_iff {a b : Nat} (ha : a < 10 ^ 20) (hb : b < 10 ^ 20) :
    (bytesLt (sprintf020 a) (sprintf020 b) = true ↔ a < b) := by
  unfold sprintf020
  rw [bytesLt_map_add48]
  have := bytesLt_iff_hornerVal (pad20 a) (pad20 b)
    (by rw [pad20_length ha, pad20_length hb]) (pad20_digits_lt a) (pad20_digits_lt b)
  rwa [hornerVal_pad20, hornerVal_pad20] at this

end KeyLemmas

section FifoLemmas

open Badger

/-- Bind on a successful `Except` computation reduces. -/
theorem except_bind_ok {ε α β : Type} (a : α) (f : α → Except ε β) :
    (Except.ok a : Except ε α) >>= f = f a := rfl

/-- A key bound in a store whose keys are distinct looks up to its value. -/
theorem lookupStore_of_mem_nodup : ∀ (l : List (Key × Msg)) (k : Key) (m : Msg),
    (k, m) ∈ l → (l.map Prod.fst).Nodup → lookupStore l k = some m := by
  intro l
  induction l with
  | nil => intro k m hm _; simp at hm
  | cons kv rest ih =>
    intro k m hm hnd
    obtain ⟨k', m'⟩ := kv
    simp only [List.map_cons, List.nodup_cons] at hnd
    rcases List.mem_cons.mp hm with h | h
    · cases h
      simp [lookupStore]
    · have hk : ¬k' = k := by
        intro he
        subst he
        exact hnd.1 (List.mem_map_of_mem Prod.fst h)
      simp only [lookupStore, if_neg hk]
      exact ih k m h hnd.2

/-- The write-log built by zipping distinct keys with messages, reversed (so
later writes sit in front), looks up each key to its own message. -/
theorem store_forall₂ (ks : List Key) (ms : List Msg) (hlen : ks.length = ms.length)
    (hnd : ks.Nodup) :
    List.Forall₂ (fun k m => lookupStore ((ks.zip ms).reverse) k = some m) ks ms := by
  rw [List.forall₂_iff_zip]
  refine ⟨hlen, ?_⟩
  intro k m hm
  apply lookupStore_of_mem_nodup
  · exact List.mem_reverse.mpr hm
  · rw [List.map_reverse, List.map_fst_zip ks ms (le_of_eq hlen)]
    exact List.nodup_reverse.mpr hnd

/-- Taking as many messages as there are pending keys returns, in order, the
message each key looks up to, leaving the pending list empty. -/
theorem takeAll_ok (s : List (Key × Msg)) :
    ∀ {ks : List Key} {ms : List Msg},
    List.Forall₂ (fun k m => lookupStore s k = some m) ks ms →
    ∀ b : Buffer, b.dbOpen = true → b.messageKeys = ks → b.store = s →
    takeAll ks.length b = .ok (ms, { b with messageKeys := [] }) := by
  intro ks ms hf
  induction hf with
  | nil =>
    intro b hopen hkeys hstore
    have hb : { b with messageKeys := ([] : List Key) } = b := by
      cases b
      simp only at hkeys
      simp [hkeys]
    simp [takeAll, hb]
  | @cons k m ks' ms' hrel htail ih =>
    intro b hopen hkeys hstore
    have hnm : NextMessage b = .ok (m, k, { b with messageKeys := ks' }) := by
      unfold NextMessage
      rw [hopen, hkeys, hstore]
      simp [hrel]
    have ihb := ih { b with messageKeys := ks' } hopen rfl hstore
    dsimp only at ihb
    simp [takeAll, hnm, ihb, except_bind_ok]

/-- Pushing a list of messages into an open buffer appends the printed keys
of consecutive sequence numbers at the tail, prepends the corresponding
records to the write-log, and advances counter and sequence. -/
theorem pushAll_ok : ∀ (ms : List Msg) (b : Buffer), b.dbOpen = true →
    pushAll ms b = .ok
      { b with
        messageKeys := b.messageKeys ++ (List.range' b.seqNext ms.length).map sprintf020
        store := (((List.range' b.seqNext ms.length).map sprintf020).zip ms).reverse ++ b.store
        seqNext := b.seqNext + ms.length
        pendingCtr := b.pendingCtr + ms.length } := by
  intro ms
  induction ms with
  | nil =>
    intro b hopen
    cases b
    simp [pushAll]
  | cons m ms ih =>
    intro b hopen
    have hpm : PushMessage m b = .ok (storeSize ((sprintf020 b.seqNext, m) :: b.store),
        { b with store := (sprintf020 b.seqNext, m) :: b.store
                 seqNext := b.seqNext + 1
                 messageKeys := b.messageKeys ++ [sprintf020 b.seqNext]
                 pendingCtr := b.pendingCtr + 1 }) := by
      unfold PushMessage
      rw [hopen]
      simp
    simp only [pushAll, hpm, except_bind_ok]
    rw [ih { b with store := (sprintf020 b.seqNext, m) :: b.store
                    seqNext := b.seqNext + 1
                    messageKeys := b.messageKeys ++ [sprintf020 b.seqNext]
                    pendingCtr := b.pendingCtr + 1 } (by exact hopen)]
    simp only [Except.ok.injEq, List.range'_succ, List.length_cons, List.map_cons,
      List.zip_cons_cons, List.reverse_cons, List.append_assoc, List.singleton_append,
      List.cons_append, Buffer.mk.injEq]
    repeat' apply And.intro
    all_goals first
    | rfl
    | trivial
    | (push_cast; ring)

end FifoLemmas

section ClaimTheorem1

open Badger

/-- C1: FIFO under no-nack. Pushing `m1…mN` into a freshly opened empty
buffer with no KV failures and then taking `N` times returns `m1…mN` in
order; keys are printed as 20-byte zero-padded decimals (for the whole
`uint64` range of the sequence) whose byte-lexicographic order equals
numeric order; a push appends its new key at the tail of the pending list;
and a take removes the head key. -/
theorem c1_fifo_push_take :
    (∀ ms : List Msg, fifoRun ms = .ok ms) ∧
    (∀ n : Nat, n < 2 ^ 64 →
      (sprintf020 n).length = 20 ∧ ∀ c ∈ sprintf020 n, 48 ≤ c ∧ c ≤ 57) ∧
    (∀ a b : Nat, a < 2 ^ 64 → b < 2 ^ 64 →
      (bytesLt (sprintf020 a) (sprintf020 b) = true ↔ a < b)) ∧
    (∀ (m : Msg) (b : Buffer), b.dbOpen = true →
      PushMessage m b = .ok (storeSize ((sprintf020 b.seqNext, m) :: b.store),
        { b with store := (sprintf020 b.seqNext, m) :: b.store
                 seqNext := b.seqNext + 1
                 messageKeys := b.messageKeys ++ [sprintf020 b.seqNext]
                 pendingCtr := b.pendingCtr + 1 })) ∧
    (∀ (b : Buffer) (k : Key) (rest : List Key) (m : Msg),
      b.dbOpen = true → b.messageKeys = k :: rest → lookupStore b.store k = some m →
      NextMessage b = .ok (m, k, { b with messageKeys := rest })) := by
  have hpow : (2 : Nat) ^ 64 < 10 ^ 20 := by norm_num
  refine ⟨?_, ?_, ?_, ?_, ?_⟩
  · intro ms
    have hpush : pushAll ms freshBuffer = .ok
        { messageKeys := (List.range' 0 ms.length).map sprintf020
          pendingCtr := (ms.length : Int)
          dbOpen := true
          seqAttached := true
          seqReleased := false
          seqNext := ms.length
          store := (((List.range' 0 ms.length).map sprintf020).zip ms).reverse } := by
      have := pushAll_ok ms freshBuffer rfl
      simpa [freshBuffer] using this
    have hnd : ((List.range' 0 ms.length).map sprintf020).Nodup :=
      List.Nodup.map sprintf020_injective (List.nodup_range' 0 ms.length)
    have hlen : ((List.range' 0 ms.length).map sprintf020).length = ms.length := by simp
    have hforall := store_forall₂ ((List.range' 0 ms.length).map sprintf020) ms hlen hnd
    have htake := takeAll_ok ((((List.range' 0 ms.length).map sprintf020).zip ms).reverse)
      hforall
      { messageKeys := (List.range' 0 ms.length).map sprintf020
        pendingCtr := (ms.length : Int)
        dbOpen := true
        seqAttached := true
        seqReleased := false
        seqNext := ms.length
        store := (((List.range' 0 ms.length).map sprintf020).zip ms).reverse }
      rfl rfl rfl
    rw [hlen] at htake
    unfold fifoRun
    rw [hpush, except_bind_ok, htake, except_bind_ok]
  · intro n hn
    have h20 : n < 10 ^ 20 := lt_trans hn hpow
    exact ⟨sprintf020_length h20, sprintf020_digits n⟩
  · intro a b ha hb
    exact sprintf020_lt_iff (lt_trans ha hpow) (lt_trans hb hpow)
  · intro m b hopen
    unfold PushMessage
    rw [hopen]
    simp
  · intro b k rest m hopen hkeys hlook
    unfold NextMessage
    rw [hopen, hkeys]
    simp [hlook]

/-- C1 witness: the FIFO law on a concrete two-message run, and the key
format and order at concrete sequence numbers. -/
theorem c1_fifo_push_take_witness :
    fifoRun [[7], [8]] = .ok [[7], [8]] ∧
    (sprintf020 3).length = 20 ∧
    (bytesLt (sprintf020 3) (sprintf020 5) = true ↔ 3 < 5) :=
  ⟨c1_fifo_push_take.1 [[7], [8]],
   (c1_fifo_push_take.2.1 3 (by norm_num)).1,
   c1_fifo_push_take.2.2.1 3 5 (by norm_num) (by norm_num)⟩

end ClaimTheorem1
